import Mathlib

/-!
Verification development for the couchbase-lite-C query API
(`include/cbl/CBLQuery.h`).  The header declares the public surface of the
query subsystem: query objects with parameter bindings, result-set
iterators, a live-query change-listener mechanism, and a database index
catalog.  The header contains declarations only; the behaviour of each
operation is specified in the accompanying design document (spec.md), so
the operational definitions below are modelled from the spec, keeping the
header's names where Lean allows it.
-/

namespace CBL

/-- Modelled from the spec: opaque structured column values (the Fleece
value encoding is an external collaborator); `missing` is the sentinel
returned by column accessors when there is no current row (spec 4.2). -/
inductive Value where
  | missing
  | null
  | boolean (b : Bool)
  | integer (n : Int)
  | str (s : String)
  deriving DecidableEq, Repr

/-- Modelled from the spec: a ResultSet is one execution's ordered sequence
of rows; column count and names are fixed for its lifetime (spec 3,
"ResultSet"); the `CBLResultSet` implementation is not in the header. -/
structure ResultSet where
  schema : List String
  rows : List (List Value)
  deriving DecidableEq, Repr

/-- Modelled from the spec: an error produced by query compilation or
execution (spec 7); the error representation is not in the header. -/
structure QError where
  code : Nat
  message : String
  deriving DecidableEq, Repr

/-- Modelled from the spec: the outcome of one background execution of a
live query, either a ResultSet or an execution error (spec 4.1, 4.4). -/
inductive RunResult where
  | ok (rs : ResultSet)
  | err (e : QError)
  deriving DecidableEq, Repr

/-- Modelled from the spec: the ResultSetComparator (spec 4.3), absent from
the header.  Two ResultSets are equivalent iff they have identical column
schema and identical rows (same count, structurally equal values, same
order). -/
def equivalent (a b : ResultSet) : Bool :=
  decide (a.schema = b.schema ∧ a.rows = b.rows)

/-- Modelled from the spec: the cursor position of a ResultSet iterator
(spec 4.2): before the first row, at a row, or exhausted. -/
inductive Cursor where
  | beforeFirst
  | atRow (i : Nat)
  | exhausted
  deriving DecidableEq, Repr

/-- Modelled from the spec: the iteration state of a `CBLResultSet`
(spec 4.2); the implementation behind the header's iterator functions is
not in the header. -/
structure ResultSetIter where
  rs : ResultSet
  cursor : Cursor
  deriving DecidableEq, Repr

/-- Modelled from the spec: `CBLResultSet_Next` moves the cursor to the
next row, returning false and becoming exhausted at the end (spec 4.2);
only declared in the header. -/
def CBLResultSet_Next (it : ResultSetIter) : Bool × ResultSetIter :=
  match it.cursor with
  | .beforeFirst =>
    if 0 < it.rs.rows.length then (true, { it with cursor := .atRow 0 })
    else (false, { it with cursor := .exhausted })
  | .atRow i =>
    if i + 1 < it.rs.rows.length then (true, { it with cursor := .atRow (i + 1) })
    else (false, { it with cursor := .exhausted })
  | .exhausted => (false, it)

/-- Modelled from the spec: the current row under the cursor, if any
(spec 4.2). -/
def currentRow (it : ResultSetIter) : Option (List Value) :=
  match it.cursor with
  | .atRow i => it.rs.rows[i]?
  | _ => none

/-- Modelled from the spec: `CBLResultSet_ValueAtIndex` reads a column of
the current row by position; before the first advance or after exhaustion
it returns the `missing` sentinel and never crashes (spec 4.2); only
declared in the header. -/
def CBLResultSet_ValueAtIndex (it : ResultSetIter) (idx : Nat) : Value :=
  match currentRow it with
  | some row => (row[idx]?).getD Value.missing
  | none => Value.missing

/-- Modelled from the spec: `CBLResultSet_ValueForKey` reads a column of
the current row by name, resolving the name against the fixed column
schema (spec 4.2); only declared in the header. -/
def CBLResultSet_ValueForKey (it : ResultSetIter) (key : String) : Value :=
  match it.rs.schema.findIdx? (fun nm => nm = key) with
  | some i => CBLResultSet_ValueAtIndex it i
  | none => Value.missing

/-- Modelled from the spec: a Query's mutable attributes relevant to
parameter binding (spec 3, "Query"); the `CBLQuery` implementation is not
in the header.  Parameters are an ordered mapping from parameter name to
value. -/
structure Query where
  queryString : String
  parameters : List (String × Value)
  deriving DecidableEq, Repr

/-- Modelled from the spec: `CBLQuery_SetParametersAsJSON` (declared only
in the header).  The JSON front end is an external collaborator (spec 6),
so the parser is a parameter; on malformed JSON the call returns false and
the prior bindings are left unchanged (spec 6, 7). -/
def CBLQuery_SetParametersAsJSON (parse : String → Option (List (String × Value)))
    (q : Query) (json : String) : Bool × Query :=
  match parse json with
  | none => (false, q)
  | some p => (true, { q with parameters := p })

/-- Types of database indexes, from the header (`CBLIndexType`). -/
inductive CBLIndexType where
  | value
  | fullText
  deriving DecidableEq, Repr

/-- Parameters for creating a database index, from the header
(`CBLIndexSpec`). -/
structure CBLIndexSpec where
  type : CBLIndexType
  keyExpressionsJSON : String
  ignoreAccents : Bool
  language : String
  deriving DecidableEq, Repr

/-- Modelled from the spec: the database's persistent index catalog
(spec 4.6); the IndexManager implementation is not in the header. -/
abbrev Catalog := List (String × CBLIndexSpec)

/-- Modelled from the spec: `CBLDatabase_DeleteIndex` drops an index by
name (spec 4.6); only declared in the header. -/
def CBLDatabase_DeleteIndex (cat : Catalog) (nm : String) : Bool × Catalog :=
  (true, List.filter (fun p => p.1 ≠ nm) cat)

/-- Modelled from the spec: `CBLDatabase_IndexNames` lists the names of
the indexes in the catalog (spec 4.6); only declared in the header. -/
def CBLDatabase_IndexNames (cat : Catalog) : List String :=
  List.map Prod.fst cat

/-- Modelled from the spec: `CBLDatabase_CreateIndex` (declared only in
the header).  Creating an index with an existing name and identical spec
is a no-op returning success; with a differing spec it drops the old index
and recreates it, atomically from the caller's perspective (spec 4.6). -/
def CBLDatabase_CreateIndex (cat : Catalog) (nm : String) (spec : CBLIndexSpec) :
    Bool × Catalog :=
  match List.find? (fun p => p.1 = nm) cat with
  | some p =>
    if p.2 = spec then (true, cat)
    else (true, (CBLDatabase_DeleteIndex cat nm).2 ++ [(nm, spec)])
  | none => (true, cat ++ [(nm, spec)])

/-- Modelled from the spec: the LiveQueryController phases (spec 4.4).
`running pending` records whether a change notification arrived during the
run, requiring another run right after this one finishes. -/
inductive Phase where
  | idle
  | scheduled
  | running (pending : Bool)
  | settled
  deriving DecidableEq, Repr

/-- Modelled from the spec: a listener registration (spec 3, 4.5): an
opaque token plus the listener's own last-delivered ResultSet snapshot. -/
structure Listener where
  token : Nat
  snapshot : Option ResultSet
  deriving DecidableEq, Repr

/-- Modelled from the spec: the LiveQueryController plus ListenerRegistry
state for one Query (spec 4.4, 4.5); neither is in the header. -/
structure Controller where
  phase : Phase
  listeners : List Listener
  lastDelivered : Option ResultSet
  storedError : Option QError
  deriving DecidableEq, Repr

/-- Modelled from the spec: the events driving the controller state
machine (spec 4.4): listener registration and removal, database-change
notifications, and the start and completion of a background execution. -/
inductive Event where
  | addListener (tok : Nat)
  | removeListener (tok : Nat)
  | dbChange
  | runStart
  | runComplete (res : RunResult)
  deriving DecidableEq, Repr

/-- Modelled from the spec: ListenerRegistry dispatch (spec 4.5) replaces
every registered listener's snapshot with the newly delivered one. -/
def notifyAll (ls : List Listener) (snap : Option ResultSet) : List Listener :=
  List.map (fun l => { l with snapshot := snap }) ls

/-- Modelled from the spec: one transition of the LiveQueryController
state machine (spec 4.4), returning the successor state and the payload
dispatched to listeners, if any. -/
def step (c : Controller) (e : Event) : Controller × Option RunResult :=
  match e with
  | .addListener tok =>
    if c.listeners.isEmpty then
      ({ c with phase := .running false, listeners := [⟨tok, none⟩] }, none)
    else
      ({ c with listeners := c.listeners ++ [⟨tok, none⟩] }, none)
  | .removeListener tok =>
    let ls := List.filter (fun l => l.token ≠ tok) c.listeners
    if ls.isEmpty then
      ({ phase := .idle, listeners := [], lastDelivered := none, storedError := none }, none)
    else
      ({ c with listeners := ls }, none)
  | .dbChange =>
    match c.phase with
    | .idle => ({ c with phase := .scheduled }, none)
    | .settled => ({ c with phase := .scheduled }, none)
    | .scheduled => (c, none)
    | .running _ => ({ c with phase := .running true }, none)
  | .runStart =>
    match c.phase with
    | .scheduled => ({ c with phase := .running false }, none)
    | _ => (c, none)
  | .runComplete res =>
    match c.phase with
    | .running pending =>
      let next : Phase := if pending then .scheduled else .settled
      match res with
      | .ok rs =>
        match c.lastDelivered with
        | some prev =>
          if equivalent rs prev then
            ({ c with phase := next }, none)
          else
            ({ phase := next, listeners := notifyAll c.listeners (some rs),
               lastDelivered := some rs, storedError := none }, some (.ok rs))
        | none =>
          ({ phase := next, listeners := notifyAll c.listeners (some rs),
             lastDelivered := some rs, storedError := none }, some (.ok rs))
      | .err e =>
        ({ phase := next, listeners := notifyAll c.listeners none,
           lastDelivered := none, storedError := some e }, some (.err e))
    | _ => (c, none)

/-- Modelled from the spec: run the controller over a sequence of events
(spec 4.4). -/
def applyEvents (c : Controller) : List Event → Controller
  | [] => c
  | e :: es => applyEvents (step c e).1 es

/-- Modelled from the spec: the sequence of payloads dispatched to
listeners while running the controller over a sequence of events
(spec 4.5). -/
def dispatches (c : Controller) : List Event → List RunResult
  | [] => []
  | e :: es => (step c e).2.toList ++ dispatches (step c e).1 es

/-- Modelled from the spec: the results of the completed executions in a
sequence of events, in completion order (spec 5, ordering). -/
def completions : List Event → List RunResult
  | [] => []
  | .runComplete r :: es => r :: completions es
  | _ :: es => completions es

/-- Modelled from the spec: the number of background runs actually begun
while processing a sequence of events; a run begins exactly when a
`runStart` event finds the controller `scheduled` (spec 4.4). -/
def runsStarted : Controller → List Event → Nat
  | _, [] => 0
  | c, .runStart :: es =>
    (if c.phase = Phase.scheduled then 1 else 0) + runsStarted (step c .runStart).1 es
  | c, e :: es => runsStarted (step c e).1 es

/-- Modelled from the spec: the number of pending re-runs in a phase: one
when a run is scheduled but not started, one when a change arrived during
the current run, zero otherwise (spec 4.4). -/
def pendingRuns : Phase → Nat
  | .scheduled => 1
  | .running p => if p then 1 else 0
  | _ => 0

/-- Modelled from the spec: `CBLQuery_CurrentResults` (declared only in
the header).  Returns the listener's current result set and the stored
error of the most recent failed run; before the first dispatch neither is
available (spec 4.5).  The controller state is returned unchanged: the
read has no side effect. -/
def CBLQuery_CurrentResults (c : Controller) (tok : Nat) :
    (Option ResultSet × Option QError) × Controller :=
  match List.find? (fun l => l.token = tok) c.listeners with
  | none => ((none, none), c)
  | some l =>
    match c.storedError with
    | some e => ((none, some e), c)
    | none => ((l.snapshot, none), c)

/-- Modelled from the spec: the snapshot held by the registration with the
given token, if registered (spec 4.5). -/
def snapshotOf (c : Controller) (tok : Nat) : Option (Option ResultSet) :=
  Option.map Listener.snapshot (List.find? (fun l => l.token = tok) c.listeners)

lemma currentRow_eq_none (it : ResultSetIter)
    (h : it.cursor = Cursor.beforeFirst ∨ it.cursor = Cursor.exhausted) :
    currentRow it = none := by
  unfold currentRow
  rcases h with h | h <;> rw [h]

lemma valueAtIndex_missing_of_no_row (it : ResultSetIter) (h : currentRow it = none)
    (idx : Nat) : CBLResultSet_ValueAtIndex it idx = Value.missing := by
  unfold CBLResultSet_ValueAtIndex
  rw [h]

lemma valueForKey_missing_of_no_row (it : ResultSetIter) (h : currentRow it = none)
    (key : String) : CBLResultSet_ValueForKey it key = Value.missing := by
  unfold CBLResultSet_ValueForKey
  cases hf : it.rs.schema.findIdx? (fun nm => nm = key) with
  | none => rfl
  | some i => exact valueAtIndex_missing_of_no_row it h i

/-- Claim C5: two ResultSets are `equivalent` iff they have identical
column schema, identical row count, and structurally equal rows in the
same order; `equivalent` is reflexive, symmetric, and false whenever the
row counts differ. -/
theorem equivalent_characterization :
    (∀ a b : ResultSet, equivalent a b = true ↔
      (a.schema = b.schema ∧ a.rows.length = b.rows.length ∧
        ∀ i : Nat, a.rows[i]? = b.rows[i]?))
    ∧ (∀ a : ResultSet, equivalent a a = true)
    ∧ (∀ a b : ResultSet, equivalent a b = equivalent b a)
    ∧ (∀ a b : ResultSet, a.rows.length ≠ b.rows.length → equivalent a b = false) := by
  refine ⟨?_, ?_, ?_, ?_⟩
  · intro a b
    unfold equivalent
    simp only [decide_eq_true_eq]
    constructor
    · rintro ⟨h1, h2⟩
      exact ⟨h1, by rw [h2], fun i => by rw [h2]⟩
    · rintro ⟨h1, _, h3⟩
      exact ⟨h1, List.ext_getElem? h3⟩
  · intro a
    unfold equivalent
    simp
  · intro a b
    unfold equivalent
    exact decide_eq_decide.mpr
      ⟨fun h => ⟨h.1.symm, h.2.symm⟩, fun h => ⟨h.1.symm, h.2.symm⟩⟩
  · intro a b h
    unfold equivalent
    simp only [decide_eq_false_iff_not, not_and]
    intro _ h2
    exact absurd (by rw [h2]) h

theorem equivalent_characterization_witness :
    equivalent ⟨["c"], [[Value.integer 1]]⟩ ⟨["c"], []⟩ = false :=
  equivalent_characterization.2.2.2 ⟨["c"], [[Value.integer 1]]⟩ ⟨["c"], []⟩ (by decide)

/-- Claim C8: the ResultSet iterator is safe and single-pass: when
`CBLResultSet_Next` returns false the iterator is exhausted, a further
call on an exhausted iterator returns false and leaves it exhausted, the
column accessors return the `missing` sentinel before the first advance
and after exhaustion, and the cursor only ever moves forward (from row i
to row i+1 or to exhausted, never backwards). -/
theorem resultset_iterator_safety :
    (∀ it : ResultSetIter, (CBLResultSet_Next it).1 = false →
      (CBLResultSet_Next it).2.cursor = Cursor.exhausted)
    ∧ (∀ it : ResultSetIter, it.cursor = Cursor.exhausted →
      CBLResultSet_Next it = (false, it))
    ∧ (∀ it : ResultSetIter,
      it.cursor = Cursor.beforeFirst ∨ it.cursor = Cursor.exhausted →
      (∀ idx : Nat, CBLResultSet_ValueAtIndex it idx = Value.missing)
      ∧ (∀ key : String, CBLResultSet_ValueForKey it key = Value.missing))
    ∧ (∀ it : ResultSetIter, ∀ i : Nat, it.cursor = Cursor.atRow i →
      (CBLResultSet_Next it).2.cursor = Cursor.atRow (i + 1)
      ∨ (CBLResultSet_Next it).2.cursor = Cursor.exhausted)
    ∧ (∀ it : ResultSetIter, it.cursor = Cursor.beforeFirst →
      (CBLResultSet_Next it).2.cursor = Cursor.atRow 0
      ∨ (CBLResultSet_Next it).2.cursor = Cursor.exhausted) := by
  refine ⟨?_, ?_, ?_, ?_, ?_⟩
  · intro it h
    obtain ⟨rs, cur⟩ := it
    cases cur with
    | beforeFirst =>
      by_cases hl : 0 < rs.rows.length
      · simp [CBLResultSet_Next, hl] at h
      · simp [CBLResultSet_Next, hl]
    | atRow i =>
      by_cases hl : i + 1 < rs.rows.length
      · simp [CBLResultSet_Next, hl] at h
      · simp [CBLResultSet_Next, hl]
    | exhausted => simp [CBLResultSet_Next]
  · intro it h
    obtain ⟨rs, cur⟩ := it
    cases h
    rfl
  · intro it h
    exact ⟨valueAtIndex_missing_of_no_row it (currentRow_eq_none it h),
           valueForKey_missing_of_no_row it (currentRow_eq_none it h)⟩
  · intro it i h
    obtain ⟨rs, cur⟩ := it
    cases h
    by_cases hl : i + 1 < rs.rows.length
    · left
      simp [CBLResultSet_Next, hl]
    · right
      simp [CBLResultSet_Next, hl]
  · intro it h
    obtain ⟨rs, cur⟩ := it
    cases h
    by_cases hl : 0 < rs.rows.length
    · left
      simp [CBLResultSet_Next, hl]
    · right
      simp [CBLResultSet_Next, hl]

theorem resultset_iterator_safety_witness :
    CBLResultSet_Next ⟨⟨["c"], []⟩, Cursor.exhausted⟩
      = (false, ⟨⟨["c"], []⟩, Cursor.exhausted⟩)
    ∧ CBLResultSet_ValueAtIndex ⟨⟨["c"], [[Value.null]]⟩, Cursor.beforeFirst⟩ 0
      = Value.missing :=
  ⟨resultset_iterator_safety.2.1 ⟨⟨["c"], []⟩, Cursor.exhausted⟩ rfl,
   (resultset_iterator_safety.2.2.1 ⟨⟨["c"], [[Value.null]]⟩, Cursor.beforeFirst⟩
     (Or.inl rfl)).1 0⟩

lemma step_runComplete_ok_first (c : Controller) (p : Bool) (rs : ResultSet)
    (hp : c.phase = Phase.running p) (hd : c.lastDelivered = none) :
    step c (Event.runComplete (RunResult.ok rs)) =
      ({ phase := if p then Phase.scheduled else Phase.settled,
         listeners := notifyAll c.listeners (some rs),
         lastDelivered := some rs, storedError := none }, some (RunResult.ok rs)) := by
  obtain ⟨ph, ls, ld, se⟩ := c
  cases hp
  cases hd
  rfl

lemma step_runComplete_ok_changed (c : Controller) (p : Bool) (rs prev : ResultSet)
    (hp : c.phase = Phase.running p) (hd : c.lastDelivered = some prev)
    (he : equivalent rs prev = false) :
    step c (Event.runComplete (RunResult.ok rs)) =
      ({ phase := if p then Phase.scheduled else Phase.settled,
         listeners := notifyAll c.listeners (some rs),
         lastDelivered := some rs, storedError := none }, some (RunResult.ok rs)) := by
  obtain ⟨ph, ls, ld, se⟩ := c
  cases hp
  cases hd
  simp [step, he]

lemma step_runComplete_ok_same (c : Controller) (p : Bool) (rs prev : ResultSet)
    (hp : c.phase = Phase.running p) (hd : c.lastDelivered = some prev)
    (he : equivalent rs prev = true) :
    step c (Event.runComplete (RunResult.ok rs)) =
      ({ c with phase := if p then Phase.scheduled else Phase.settled }, none) := by
  obtain ⟨ph, ls, ld, se⟩ := c
  cases hp
  cases hd
  simp [step, he]

lemma step_runComplete_err (c : Controller) (p : Bool) (e : QError)
    (hp : c.phase = Phase.running p) :
    step c (Event.runComplete (RunResult.err e)) =
      ({ phase := if p then Phase.scheduled else Phase.settled,
         listeners := notifyAll c.listeners none,
         lastDelivered := none, storedError := some e }, some (RunResult.err e)) := by
  obtain ⟨ph, ls, ld, se⟩ := c
  cases hp
  rfl

lemma mem_notifyAll (ls : List Listener) (snap : Option ResultSet) (l : Listener)
    (h : l ∈ notifyAll ls snap) : l.snapshot = snap := by
  simp only [notifyAll, List.mem_map] at h
  obtain ⟨a, -, rfl⟩ := h
  rfl

/-- Claim C1: when a live-query execution completes, the new ResultSet is
dispatched to the listeners and stored as the last-delivered snapshot iff
it is not equivalent to the previously delivered ResultSet or this is the
first run; when it is equivalent, it is discarded and no listener is
notified or updated. -/
theorem live_query_dispatch_iff_changed (c : Controller) (p : Bool) (rs : ResultSet)
    (hp : c.phase = Phase.running p) :
    (((step c (Event.runComplete (RunResult.ok rs))).2 = some (RunResult.ok rs)
       ∧ (step c (Event.runComplete (RunResult.ok rs))).1.lastDelivered = some rs
       ∧ (step c (Event.runComplete (RunResult.ok rs))).1.listeners
           = notifyAll c.listeners (some rs))
      ↔ (c.lastDelivered = none ∨
          ∃ prev, c.lastDelivered = some prev ∧ equivalent rs prev = false))
    ∧ (∀ prev, c.lastDelivered = some prev → equivalent rs prev = true →
        (step c (Event.runComplete (RunResult.ok rs))).2 = none
        ∧ (step c (Event.runComplete (RunResult.ok rs))).1.listeners = c.listeners
        ∧ (step c (Event.runComplete (RunResult.ok rs))).1.lastDelivered
            = c.lastDelivered) := by
  cases hd : c.lastDelivered with
  | none =>
    rw [step_runComplete_ok_first c p rs hp hd]
    refine ⟨?_, ?_⟩
    · simp
    · intro prev hprev
      cases hprev
  | some prev =>
    cases he : equivalent rs prev with
    | true =>
      rw [step_runComplete_ok_same c p rs prev hp hd he]
      refine ⟨?_, ?_⟩
      · constructor
        · rintro ⟨h1, -, -⟩
          cases h1
        · rintro (h1 | ⟨prev2, hprev2, he2⟩)
          · cases h1
          · injection hprev2 with h2
            subst h2
            rw [he] at he2
            cases he2
      · intro prev2 hprev2 he2
        exact ⟨rfl, rfl, hd⟩
    | false =>
      rw [step_runComplete_ok_changed c p rs prev hp hd he]
      refine ⟨?_, ?_⟩
      · constructor
        · intro _
          exact Or.inr ⟨prev, rfl, he⟩
        · intro _
          exact ⟨rfl, rfl, rfl⟩
      · intro prev2 hprev2 he2
        injection hprev2 with h2
        subst h2
        rw [he] at he2
        cases he2

theorem live_query_dispatch_iff_changed_witness :
    (step ⟨Phase.running false, [⟨1, none⟩], none, none⟩
        (Event.runComplete (RunResult.ok ⟨["c"], []⟩))).2
      = some (RunResult.ok ⟨["c"], []⟩) :=
  ((live_query_dispatch_iff_changed ⟨Phase.running false, [⟨1, none⟩], none, none⟩
      false ⟨["c"], []⟩ rfl).1.mpr (Or.inl rfl)).1

/-- Claim C10: every dispatch to a change listener hands over the entire
new ResultSet of the latest execution, with every row of that execution
present, never a delta of changed rows: the dispatched payload is the
executed ResultSet itself and each listener's retrievable snapshot equals
it. -/
theorem dispatch_carries_entire_resultset (c c' : Controller) (rs : ResultSet)
    (d : RunResult)
    (h : step c (Event.runComplete (RunResult.ok rs)) = (c', some d)) :
    d = RunResult.ok rs
    ∧ (∀ l ∈ c'.listeners, l.snapshot = some rs)
    ∧ (∀ dr : ResultSet, d = RunResult.ok dr → dr.rows = rs.rows) := by
  obtain ⟨ph, ls, ld, se⟩ := c
  cases ph with
  | idle => simp [step] at h
  | scheduled => simp [step] at h
  | settled => simp [step] at h
  | running p =>
    cases hd : ld with
    | none =>
      rw [step_runComplete_ok_first ⟨Phase.running p, ls, ld, se⟩ p rs rfl hd] at h
      rw [Prod.mk.injEq] at h
      obtain ⟨h1, h2⟩ := h
      injection h2 with h2
      subst h1
      subst h2
      refine ⟨rfl, ?_, ?_⟩
      · intro l hl
        exact mem_notifyAll ls (some rs) l hl
      · intro dr hdr
        injection hdr with h3
        rw [h3]
    | some prev =>
      cases he : equivalent rs prev with
      | true =>
        rw [step_runComplete_ok_same ⟨Phase.running p, ls, ld, se⟩ p rs prev rfl
          (by rw [hd]) he] at h
        rw [Prod.mk.injEq] at h
        cases h.2
      | false =>
        rw [step_runComplete_ok_changed ⟨Phase.running p, ls, ld, se⟩ p rs prev rfl
          (by rw [hd]) he] at h
        rw [Prod.mk.injEq] at h
        obtain ⟨h1, h2⟩ := h
        injection h2 with h2
        subst h1
        subst h2
        refine ⟨rfl, ?_, ?_⟩
        · intro l hl
          exact mem_notifyAll ls (some rs) l hl
        · intro dr hdr
          injection hdr with h3
          rw [h3]

theorem dispatch_carries_entire_resultset_witness :
    RunResult.ok (⟨["c"], [[Value.null]]⟩ : ResultSet)
      = RunResult.ok ⟨["c"], [[Value.null]]⟩ :=
  (dispatch_carries_entire_resultset
    ⟨Phase.running false, [⟨1, none⟩], none, none⟩
    ⟨Phase.settled, [⟨1, some ⟨["c"], [[Value.null]]⟩⟩], some ⟨["c"], [[Value.null]]⟩, none⟩
    ⟨["c"], [[Value.null]]⟩ (RunResult.ok ⟨["c"], [[Value.null]]⟩) rfl).1

lemma currentResults_of_stored_error (c1 : Controller) (tok : Nat) (e : QError)
    (hfind : (List.find? (fun l => l.token = tok) c1.listeners).isSome = true)
    (he : c1.storedError = some e) :
    (CBLQuery_CurrentResults c1 tok).1 = (none, some e) := by
  cases hf : List.find? (fun l => l.token = tok) c1.listeners with
  | none =>
    rw [hf] at hfind
    cases hfind
  | some l1 =>
    simp only [CBLQuery_CurrentResults, hf, he]

/-- Claim C4: an execution error while the controller is Running (with no
further change pending) moves it to Settled with no stored ResultSet, the
error is still dispatched to the listeners — so retrieving current results
afterwards yields no ResultSet together with the stored error — and the
controller keeps watching: a later database change schedules another run,
so the error neither terminates the controller nor is dropped. -/
theorem execution_error_settles_and_notifies (c : Controller) (e : QError)
    (hp : c.phase = Phase.running false) :
    (step c (Event.runComplete (RunResult.err e))).1.phase = Phase.settled
    ∧ (step c (Event.runComplete (RunResult.err e))).1.lastDelivered = none
    ∧ (step c (Event.runComplete (RunResult.err e))).2 = some (RunResult.err e)
    ∧ (step c (Event.runComplete (RunResult.err e))).1.storedError = some e
    ∧ (step c (Event.runComplete (RunResult.err e))).1.listeners
        = notifyAll c.listeners none
    ∧ (∀ l ∈ c.listeners,
        (CBLQuery_CurrentResults (step c (Event.runComplete (RunResult.err e))).1
          l.token).1 = (none, some e))
    ∧ (step (step c (Event.runComplete (RunResult.err e))).1 Event.dbChange).1.phase
        = Phase.scheduled := by
  rw [step_runComplete_err c false e hp]
  refine ⟨rfl, rfl, rfl, rfl, rfl, ?_, rfl⟩
  intro l hl
  apply currentResults_of_stored_error _ _ e _ rfl
  rw [List.find?_isSome]
  refine ⟨{ l with snapshot := none }, ?_, ?_⟩
  · exact List.mem_map.mpr ⟨l, hl, rfl⟩
  · simp

theorem execution_error_settles_and_notifies_witness :
    (step ⟨Phase.running false, [⟨1, some ⟨["c"], [[Value.null]]⟩⟩],
        some ⟨["c"], [[Value.null]]⟩, none⟩
      (Event.runComplete (RunResult.err ⟨7, "disk"⟩))).1.phase = Phase.settled :=
  (execution_error_settles_and_notifies
    ⟨Phase.running false, [⟨1, some ⟨["c"], [[Value.null]]⟩⟩],
      some ⟨["c"], [[Value.null]]⟩, none⟩ ⟨7, "disk"⟩ rfl).1

/-- Claim C7: setting query parameters from a JSON string that the JSON
front end cannot parse returns false and leaves the query — in particular
its previously set parameter bindings — completely unchanged, while a
parseable string replaces the bindings; the failure is non-fatal to the
query. -/
theorem set_parameters_json_atomic_on_error
    (parse : String → Option (List (String × Value))) (q : Query) (json : String)
    (h : parse json = none) :
    CBLQuery_SetParametersAsJSON parse q json = (false, q)
    ∧ (CBLQuery_SetParametersAsJSON parse q json).2.parameters = q.parameters := by
  unfold CBLQuery_SetParametersAsJSON
  rw [h]
  exact ⟨rfl, rfl⟩

theorem set_parameters_json_atomic_on_error_witness :
    CBLQuery_SetParametersAsJSON (fun _ => none)
        ⟨"SELECT 1", [("n", Value.integer 3)]⟩ "not json"
      = (false, ⟨"SELECT 1", [("n", Value.integer 3)]⟩) :=
  (set_parameters_json_atomic_on_error (fun _ => none)
    ⟨"SELECT 1", [("n", Value.integer 3)]⟩ "not json" rfl).1

lemma createIndex_eq_same (cat : Catalog) (nm : String) (spec : CBLIndexSpec)
    (p : String × CBLIndexSpec)
    (hf : List.find? (fun q => q.1 = nm) cat = some p) (hs : p.2 = spec) :
    CBLDatabase_CreateIndex cat nm spec = (true, cat) := by
  unfold CBLDatabase_CreateIndex
  simp only [hf]
  rw [if_pos hs]

lemma createIndex_eq_diff (cat : Catalog) (nm : String) (spec : CBLIndexSpec)
    (p : String × CBLIndexSpec)
    (hf : List.find? (fun q => q.1 = nm) cat = some p) (hs : ¬ p.2 = spec) :
    CBLDatabase_CreateIndex cat nm spec
      = (true, List.filter (fun q => q.1 ≠ nm) cat ++ [(nm, spec)]) := by
  unfold CBLDatabase_CreateIndex CBLDatabase_DeleteIndex
  simp only [hf]
  rw [if_neg hs]

lemma createIndex_eq_new (cat : Catalog) (nm : String) (spec : CBLIndexSpec)
    (hf : List.find? (fun q => q.1 = nm) cat = none) :
    CBLDatabase_CreateIndex cat nm spec = (true, cat ++ [(nm, spec)]) := by
  unfold CBLDatabase_CreateIndex
  simp only [hf]

lemma createIndex_result (cat : Catalog) (nm : String) (spec : CBLIndexSpec) :
    ((CBLDatabase_CreateIndex cat nm spec).2 = cat
      ∧ List.find? (fun p => p.1 = nm) cat = some (nm, spec))
    ∨ (CBLDatabase_CreateIndex cat nm spec).2
        = List.filter (fun p => p.1 ≠ nm) cat ++ [(nm, spec)] := by
  cases hf : List.find? (fun p => p.1 = nm) cat with
  | some p =>
    by_cases hs : p.2 = spec
    · left
      have h1' : p.1 = nm := by
        have h1 := List.find?_some hf
        simpa using h1
      rw [createIndex_eq_same cat nm spec p hf hs]
      refine ⟨rfl, ?_⟩
      obtain ⟨a, b⟩ := p
      simp only at h1' hs
      rw [h1', hs]
    · right
      rw [createIndex_eq_diff cat nm spec p hf hs]
  | none =>
    right
    rw [createIndex_eq_new cat nm spec hf]
    have hself : List.filter (fun q => q.1 ≠ nm) cat = cat := by
      apply List.filter_eq_self.mpr
      intro q hq
      have h2 := List.find?_eq_none.mp hf q hq
      simpa using h2
    rw [hself]

lemma find?_createIndex (cat : Catalog) (nm : String) (spec : CBLIndexSpec) :
    List.find? (fun p => p.1 = nm) (CBLDatabase_CreateIndex cat nm spec).2
      = some (nm, spec) := by
  rcases createIndex_result cat nm spec with ⟨heq, hfind⟩ | heq
  · rw [heq, hfind]
  · rw [heq, List.find?_append]
    have hnone : List.find? (fun p => p.1 = nm)
        (List.filter (fun p => p.1 ≠ nm) cat) = none := by
      apply List.find?_eq_none.mpr
      intro p hp
      have h2 := List.of_mem_filter hp
      simpa using h2
    rw [hnone]
    simp

lemma find?_filter_ne (cat : Catalog) (nm m : String) (hne : m ≠ nm) :
    List.find? (fun p => p.1 = m) (List.filter (fun p => p.1 ≠ nm) cat)
      = List.find? (fun p => p.1 = m) cat := by
  induction cat with
  | nil => rfl
  | cons a l ih =>
    rw [List.filter_cons]
    by_cases ha : a.1 = nm
    · rw [if_neg (by simpa using ha)]
      have ham : ¬(a.1 = m) := by
        rw [ha]
        exact fun h => hne h.symm
      rw [List.find?_cons_of_neg _ (by simpa using ham)]
      exact ih
    · rw [if_pos (by simpa using ha)]
      by_cases ham : a.1 = m
      · rw [List.find?_cons_of_pos _ (by simpa using ham),
          List.find?_cons_of_pos _ (by simpa using ham)]
      · rw [List.find?_cons_of_neg _ (by simpa using ham),
          List.find?_cons_of_neg _ (by simpa using ham)]
        exact ih

/-- Claim C9: creating an index twice with an identical (name, spec) pair
succeeds both times and leaves the catalog unchanged after the second
call, with the index-name listing containing the name exactly once (and
still duplicate-free); creating under an existing name with a differing
spec yields, atomically, a catalog in which the name maps to the new spec
exactly once while every other name's entry is untouched. -/
theorem create_index_idempotent_and_atomic :
    (∀ (cat : Catalog) (nm : String) (spec : CBLIndexSpec),
      (CBLDatabase_CreateIndex cat nm spec).1 = true
      ∧ CBLDatabase_CreateIndex (CBLDatabase_CreateIndex cat nm spec).2 nm spec
          = (true, (CBLDatabase_CreateIndex cat nm spec).2))
    ∧ (∀ (cat : Catalog) (nm : String) (spec : CBLIndexSpec),
        (CBLDatabase_IndexNames cat).Nodup →
        List.count nm (CBLDatabase_IndexNames (CBLDatabase_CreateIndex cat nm spec).2)
            = 1
        ∧ (CBLDatabase_IndexNames (CBLDatabase_CreateIndex cat nm spec).2).Nodup)
    ∧ (∀ (cat : Catalog) (nm : String) (spec : CBLIndexSpec),
        List.find? (fun p => p.1 = nm) (CBLDatabase_CreateIndex cat nm spec).2
          = some (nm, spec))
    ∧ (∀ (cat : Catalog) (nm m : String) (spec : CBLIndexSpec), m ≠ nm →
        List.find? (fun p => p.1 = m) (CBLDatabase_CreateIndex cat nm spec).2
          = List.find? (fun p => p.1 = m) cat) := by
  refine ⟨?_, ?_, find?_createIndex, ?_⟩
  · intro cat nm spec
    constructor
    · cases hf : List.find? (fun p => p.1 = nm) cat with
      | some p =>
        by_cases hs : p.2 = spec
        · rw [createIndex_eq_same cat nm spec p hf hs]
        · rw [createIndex_eq_diff cat nm spec p hf hs]
      | none => rw [createIndex_eq_new cat nm spec hf]
    · have hf := find?_createIndex cat nm spec
      obtain ⟨c1, hc1⟩ : ∃ c1, (CBLDatabase_CreateIndex cat nm spec).2 = c1 := ⟨_, rfl⟩
      rw [hc1] at hf ⊢
      exact createIndex_eq_same c1 nm spec (nm, spec) hf rfl
  · intro cat nm spec hnd
    rcases createIndex_result cat nm spec with ⟨heq, hfind⟩ | heq
    · rw [heq]
      have hmem : nm ∈ CBLDatabase_IndexNames cat := by
        unfold CBLDatabase_IndexNames
        exact List.mem_map.mpr ⟨(nm, spec), List.mem_of_find?_eq_some hfind, rfl⟩
      exact ⟨List.count_eq_one_of_mem hnd hmem, hnd⟩
    · rw [heq]
      have hnames : CBLDatabase_IndexNames
          (List.filter (fun p => p.1 ≠ nm) cat ++ [(nm, spec)])
          = List.map Prod.fst (List.filter (fun p => p.1 ≠ nm) cat) ++ [nm] := by
        unfold CBLDatabase_IndexNames
        rw [List.map_append]
        rfl
      rw [hnames]
      have hnotmem : nm ∉ List.map Prod.fst (List.filter (fun p => p.1 ≠ nm) cat) := by
        intro hmem
        obtain ⟨p, hp, hfst⟩ := List.mem_map.mp hmem
        have h2 := List.of_mem_filter hp
        simp at h2
        exact h2 hfst
      have hsub : List.Sublist (List.map Prod.fst (List.filter (fun p => p.1 ≠ nm) cat))
          (CBLDatabase_IndexNames cat) := (List.filter_sublist cat).map Prod.fst
      constructor
      · rw [List.count_append]
        rw [List.count_eq_zero.mpr hnotmem]
        simp
      · rw [List.nodup_append]
        refine ⟨hnd.sublist hsub, by simp, ?_⟩
        intro a ha hb
        simp at hb
        subst hb
        exact hnotmem ha
  · intro cat nm m spec hne
    rcases createIndex_result cat nm spec with ⟨heq, -⟩ | heq
    · rw [heq]
    · rw [heq, List.find?_append, find?_filter_ne cat nm m hne]
      have hsingle : List.find? (fun p => p.1 = m) [(nm, spec)] = none := by
        apply List.find?_eq_none.mpr
        intro x hx
        rcases List.mem_singleton.mp hx with rfl
        simp only [decide_eq_true_eq]
        intro h
        exact hne h.symm
      rw [hsingle]
      cases List.find? (fun p => p.1 = m) cat <;> rfl

theorem create_index_idempotent_and_atomic_witness :
    List.count "byType"
      (CBLDatabase_IndexNames
        (CBLDatabase_CreateIndex [("old", ⟨CBLIndexType.fullText, "[.body]", true, "en"⟩)]
          "byType" ⟨CBLIndexType.value, "[.type]", false, "en"⟩).2) = 1 :=
  (create_index_idempotent_and_atomic.2.1
    [("old", ⟨CBLIndexType.fullText, "[.body]", true, "en"⟩)]
    "byType" ⟨CBLIndexType.value, "[.type]", false, "en"⟩ (by decide)).1

lemma step_dbChange_of_running_true (c : Controller) (hp : c.phase = Phase.running true) :
    (step c Event.dbChange).1 = c := by
  obtain ⟨ph, ls, ld, se⟩ := c
  cases hp
  rfl

lemma applyEvents_dbChange_of_running_true (c : Controller)
    (hp : c.phase = Phase.running true) (n : Nat) :
    applyEvents c (List.replicate n Event.dbChange) = c := by
  induction n with
  | zero => rfl
  | succ k ih =>
    rw [List.replicate_succ]
    show applyEvents (step c Event.dbChange).1 (List.replicate k Event.dbChange) = c
    rw [step_dbChange_of_running_true c hp]
    exact ih

lemma step_dbChange_of_scheduled (c : Controller) (hp : c.phase = Phase.scheduled) :
    (step c Event.dbChange).1 = c := by
  obtain ⟨ph, ls, ld, se⟩ := c
  cases hp
  rfl

lemma applyEvents_dbChange_of_scheduled (c : Controller)
    (hp : c.phase = Phase.scheduled) (n : Nat) :
    applyEvents c (List.replicate n Event.dbChange) = c := by
  induction n with
  | zero => rfl
  | succ k ih =>
    rw [List.replicate_succ]
    show applyEvents (step c Event.dbChange).1 (List.replicate k Event.dbChange) = c
    rw [step_dbChange_of_scheduled c hp]
    exact ih

lemma burst_while_running (c : Controller) (p : Bool) (n : Nat)
    (hp : c.phase = Phase.running p) (hn : 1 ≤ n) :
    applyEvents c (List.replicate n Event.dbChange)
      = { c with phase := Phase.running true } := by
  obtain ⟨m, rfl⟩ : ∃ m, n = m + 1 := ⟨n - 1, by omega⟩
  rw [List.replicate_succ]
  show applyEvents (step c Event.dbChange).1 (List.replicate m Event.dbChange) = _
  have h1 : (step c Event.dbChange).1 = { c with phase := Phase.running true } := by
    obtain ⟨ph, ls, ld, se⟩ := c
    cases hp
    rfl
  rw [h1]
  exact applyEvents_dbChange_of_running_true _ rfl m

lemma phase_after_runComplete (c : Controller) (p : Bool) (r : RunResult)
    (hp : c.phase = Phase.running p) :
    (step c (Event.runComplete r)).1.phase
      = (if p then Phase.scheduled else Phase.settled) := by
  obtain ⟨ph, ls, ld, se⟩ := c
  cases hp
  cases r with
  | ok rs =>
    cases ld with
    | none => rfl
    | some prev =>
      cases he : equivalent rs prev
      · simp [step, he]
      · simp [step, he]
  | err e => rfl

lemma step_runStart_of_scheduled (c : Controller) (hp : c.phase = Phase.scheduled) :
    (step c Event.runStart).1 = { c with phase := Phase.running false } := by
  obtain ⟨ph, ls, ld, se⟩ := c
  cases hp
  rfl

lemma applyEvents_append (c : Controller) (es tail : List Event) :
    applyEvents c (es ++ tail) = applyEvents (applyEvents c es) tail := by
  induction es generalizing c with
  | nil => rfl
  | cons e es ih =>
    rw [List.cons_append]
    show applyEvents (step c e).1 (es ++ tail) = _
    exact ih _

lemma runsStarted_append_no_start (c : Controller) (es tail : List Event)
    (h : ∀ e ∈ es, e ≠ Event.runStart) :
    runsStarted c (es ++ tail) = runsStarted (applyEvents c es) tail := by
  induction es generalizing c with
  | nil => rfl
  | cons e es ih =>
    have htail : ∀ x ∈ es, x ≠ Event.runStart :=
      fun x hx => h x (List.mem_cons_of_mem _ hx)
    cases e with
    | runStart => exact absurd rfl (h Event.runStart (List.mem_cons_self _ _))
    | addListener tok =>
      rw [List.cons_append]
      show runsStarted (step c (Event.addListener tok)).1 (es ++ tail) = _
      exact ih _ htail
    | removeListener tok =>
      rw [List.cons_append]
      show runsStarted (step c (Event.removeListener tok)).1 (es ++ tail) = _
      exact ih _ htail
    | dbChange =>
      rw [List.cons_append]
      show runsStarted (step c Event.dbChange).1 (es ++ tail) = _
      exact ih _ htail
    | runComplete r =>
      rw [List.cons_append]
      show runsStarted (step c (Event.runComplete r)).1 (es ++ tail) = _
      exact ih _ htail

lemma quiesce_after_pending (c : Controller) (r1 r2 : RunResult)
    (hp : c.phase = Phase.running true) :
    runsStarted c [Event.runComplete r1, Event.runStart, Event.runComplete r2] = 1
    ∧ (applyEvents c
        [Event.runComplete r1, Event.runStart, Event.runComplete r2]).phase
        = Phase.settled := by
  have h1 : (step c (Event.runComplete r1)).1.phase = Phase.scheduled := by
    have h := phase_after_runComplete c true r1 hp
    simpa using h
  have h2 : (step (step c (Event.runComplete r1)).1 Event.runStart).1
      = { (step c (Event.runComplete r1)).1 with phase := Phase.running false } :=
    step_runStart_of_scheduled _ h1
  have h3 : (step (step (step c (Event.runComplete r1)).1 Event.runStart).1
      (Event.runComplete r2)).1.phase = Phase.settled := by
    have hph : (step (step c (Event.runComplete r1)).1 Event.runStart).1.phase
        = Phase.running false := by
      rw [h2]
    have h := phase_after_runComplete _ false r2 hph
    simpa using h
  constructor
  · show runsStarted (step c (Event.runComplete r1)).1
        [Event.runStart, Event.runComplete r2] = 1
    show (if (step c (Event.runComplete r1)).1.phase = Phase.scheduled then 1 else 0)
        + runsStarted (step (step c (Event.runComplete r1)).1 Event.runStart).1
            [Event.runComplete r2] = 1
    rw [if_pos h1]
    show 1 + runsStarted (step (step (step c (Event.runComplete r1)).1
        Event.runStart).1 (Event.runComplete r2)).1 [] = 1
    rfl
  · show (step (step (step c (Event.runComplete r1)).1 Event.runStart).1
        (Event.runComplete r2)).1.phase = Phase.settled
    exact h3

/-- Claim C2: change notifications are coalesced but never dropped: every
phase carries at most one pending re-run; a burst of N ≥ 1 notifications
while a run is in flight leaves the controller running with exactly one
pending re-run, a burst while a run is scheduled leaves the single
scheduled run pending, and after the in-flight run completes exactly one
additional run is started — never N and never zero — after which the
controller settles. -/
theorem notification_coalescing :
    (∀ ph : Phase, pendingRuns ph ≤ 1)
    ∧ (∀ (c : Controller) (p : Bool) (n : Nat),
        c.phase = Phase.running p → 1 ≤ n →
        applyEvents c (List.replicate n Event.dbChange)
          = { c with phase := Phase.running true }
        ∧ pendingRuns (applyEvents c (List.replicate n Event.dbChange)).phase = 1)
    ∧ (∀ (c : Controller) (n : Nat), c.phase = Phase.scheduled →
        applyEvents c (List.replicate n Event.dbChange) = c
        ∧ pendingRuns (applyEvents c (List.replicate n Event.dbChange)).phase = 1)
    ∧ (∀ (c : Controller) (p : Bool) (n : Nat) (r1 r2 : RunResult),
        c.phase = Phase.running p → 1 ≤ n →
        runsStarted c (List.replicate n Event.dbChange
          ++ [Event.runComplete r1, Event.runStart, Event.runComplete r2]) = 1
        ∧ (applyEvents c (List.replicate n Event.dbChange
            ++ [Event.runComplete r1, Event.runStart, Event.runComplete r2])).phase
          = Phase.settled) := by
  refine ⟨?_, ?_, ?_, ?_⟩
  · intro ph
    rcases ph with _ | _ | p | _
    · decide
    · decide
    · cases p <;> decide
    · decide
  · intro c p n hp hn
    have hb := burst_while_running c p n hp hn
    refine ⟨hb, ?_⟩
    rw [hb]
    rfl
  · intro c n hp
    have hb := applyEvents_dbChange_of_scheduled c hp n
    refine ⟨hb, ?_⟩
    rw [hb, hp]
    rfl
  · intro c p n r1 r2 hp hn
    have hnostart : ∀ e ∈ List.replicate n Event.dbChange, e ≠ Event.runStart := by
      intro e he
      rw [List.eq_of_mem_replicate he]
      intro hcontra
      cases hcontra
    have hb := burst_while_running c p n hp hn
    have hq := quiesce_after_pending { c with phase := Phase.running true } r1 r2 rfl
    constructor
    · rw [runsStarted_append_no_start c _ _ hnostart, hb]
      exact hq.1
    · rw [applyEvents_append, hb]
      exact hq.2

theorem notification_coalescing_witness :
    runsStarted ⟨Phase.running false, [⟨1, none⟩], none, none⟩
      (List.replicate 3 Event.dbChange
        ++ [Event.runComplete (RunResult.ok ⟨["c"], []⟩), Event.runStart,
            Event.runComplete (RunResult.ok ⟨["c"], [[Value.null]]⟩)]) = 1 :=
  (notification_coalescing.2.2.2 ⟨Phase.running false, [⟨1, none⟩], none, none⟩
    false 3 (RunResult.ok ⟨["c"], []⟩) (RunResult.ok ⟨["c"], [[Value.null]]⟩)
    rfl (by decide)).1

lemma step_dispatch_cases (c : Controller) (e : Event) :
    (step c e).2 = none
    ∨ ∃ r, e = Event.runComplete r ∧ (step c e).2 = some r := by
  cases e with
  | addListener tok =>
    left
    cases h : c.listeners.isEmpty <;> simp [step, h]
  | removeListener tok =>
    left
    simp only [step]
    split <;> rfl
  | dbChange =>
    left
    obtain ⟨ph, ls, ld, se⟩ := c
    cases ph <;> rfl
  | runStart =>
    left
    obtain ⟨ph, ls, ld, se⟩ := c
    cases ph <;> rfl
  | runComplete r =>
    obtain ⟨ph, ls, ld, se⟩ := c
    cases ph with
    | idle => left; rfl
    | scheduled => left; rfl
    | settled => left; rfl
    | running p =>
      cases r with
      | ok rs =>
        cases ld with
        | none => right; exact ⟨RunResult.ok rs, rfl, rfl⟩
        | some prev =>
          cases he : equivalent rs prev with
          | true =>
            left
            simp [step, he]
          | false =>
            right
            refine ⟨RunResult.ok rs, rfl, ?_⟩
            simp [step, he]
      | err e2 => right; exact ⟨RunResult.err e2, rfl, rfl⟩

lemma dispatches_sublist (c : Controller) (es : List Event) :
    List.Sublist (dispatches c es) (completions es) := by
  induction es generalizing c with
  | nil => exact List.Sublist.refl []
  | cons e es ih =>
    rcases step_dispatch_cases c e with h | ⟨r, rfl, h⟩
    · have hd : dispatches c (e :: es) = dispatches (step c e).1 es := by
        show (step c e).2.toList ++ dispatches (step c e).1 es = _
        rw [h]
        rfl
      rw [hd]
      cases e with
      | runComplete r =>
        exact List.Sublist.cons r (ih _)
      | addListener tok => exact ih _
      | removeListener tok => exact ih _
      | dbChange => exact ih _
      | runStart => exact ih _
    · have hd : dispatches c (Event.runComplete r :: es)
          = r :: dispatches (step c (Event.runComplete r)).1 es := by
        show (step c (Event.runComplete r)).2.toList ++ _ = _
        rw [h]
        rfl
      rw [hd]
      exact List.Sublist.cons₂ r (ih _)

/-- Claim C3: delivered ResultSets are causally ordered: over any event
sequence, the dispatched payloads form a subsequence of the completed
execution results in completion order, so a listener never observes an
older snapshot after a newer one and coalescing skips but never reorders;
in particular a non-observable run followed by an observable run produces
exactly one dispatch, carrying the later run's results. -/
theorem dispatch_causal_order :
    (∀ (c : Controller) (es : List Event),
      List.Sublist (dispatches c es) (completions es))
    ∧ (∀ (c : Controller) (r0 rs1 rs2 : ResultSet),
        c.phase = Phase.settled → c.lastDelivered = some r0 →
        equivalent rs1 r0 = true → equivalent rs2 r0 = false →
        dispatches c
          [Event.dbChange, Event.runStart, Event.runComplete (RunResult.ok rs1),
           Event.dbChange, Event.runStart, Event.runComplete (RunResult.ok rs2)]
          = [RunResult.ok rs2]) := by
  refine ⟨dispatches_sublist, ?_⟩
  intro c r0 rs1 rs2 hp hd he1 he2
  obtain ⟨ph, ls, ld, se⟩ := c
  cases hp
  cases hd
  simp [dispatches, step, he1, he2]

theorem dispatch_causal_order_witness :
    dispatches
      ⟨Phase.settled, [⟨1, some ⟨["c"], [[Value.integer 1]]⟩⟩],
        some ⟨["c"], [[Value.integer 1]]⟩, none⟩
      [Event.dbChange, Event.runStart,
       Event.runComplete (RunResult.ok ⟨["c"], [[Value.integer 1]]⟩),
       Event.dbChange, Event.runStart,
       Event.runComplete (RunResult.ok ⟨["c"], []⟩)]
      = [RunResult.ok ⟨["c"], []⟩] :=
  dispatch_causal_order.2
    ⟨Phase.settled, [⟨1, some ⟨["c"], [[Value.integer 1]]⟩⟩],
      some ⟨["c"], [[Value.integer 1]]⟩, none⟩
    ⟨["c"], [[Value.integer 1]]⟩ ⟨["c"], [[Value.integer 1]]⟩ ⟨["c"], []⟩
    rfl rfl (by decide) (by decide)

lemma find?_filter_of_imp {α : Type} (l : List α) (p q : α → Bool)
    (h : ∀ a, p a = true → q a = true) :
    List.find? p (List.filter q l) = List.find? p l := by
  induction l with
  | nil => rfl
  | cons a t ih =>
    rw [List.filter_cons]
    by_cases hq : q a = true
    · rw [if_pos hq]
      by_cases hp : p a = true
      · rw [List.find?_cons_of_pos _ hp, List.find?_cons_of_pos _ hp]
      · rw [List.find?_cons_of_neg _ hp, List.find?_cons_of_neg _ hp]
        exact ih
    · rw [if_neg hq]
      have hp : ¬ p a = true := fun hpa => hq (h a hpa)
      rw [List.find?_cons_of_neg _ hp]
      exact ih

lemma snapshotOf_eq (c : Controller) (tok : Nat) (l : Listener)
    (hf : List.find? (fun x => x.token = tok) c.listeners = some l) :
    snapshotOf c tok = some l.snapshot := by
  unfold snapshotOf
  rw [hf]
  rfl

lemma snapshotOf_of_listeners_eq (d c : Controller) (tok : Nat)
    (h : d.listeners = c.listeners) : snapshotOf d tok = snapshotOf c tok := by
  unfold snapshotOf
  rw [h]

lemma step_runComplete_no_dispatch_listeners (c : Controller) (r : RunResult)
    (h : (step c (Event.runComplete r)).2 = none) :
    (step c (Event.runComplete r)).1.listeners = c.listeners := by
  obtain ⟨ph, ls, ld, se⟩ := c
  cases ph with
  | idle => rfl
  | scheduled => rfl
  | settled => rfl
  | running p =>
    cases r with
    | ok rs =>
      cases ld with
      | none => simp [step] at h
      | some prev =>
        cases he : equivalent rs prev with
        | true => simp [step, he]
        | false => simp [step, he] at h
    | err e2 => simp [step] at h

/-- Claim C6: retrieving a listener's current results is never a
side-effecting read — the controller state is returned unchanged — and a
delivered snapshot stays valid and unmutated across any controller event
that neither dispatches to the listener nor removes it. -/
theorem current_results_pure_and_stable :
    (∀ (c : Controller) (tok : Nat), (CBLQuery_CurrentResults c tok).2 = c)
    ∧ (∀ (c : Controller) (tok : Nat) (rs : ResultSet) (e : Event),
        snapshotOf c tok = some (some rs) →
        (step c e).2 = none →
        e ≠ Event.removeListener tok →
        snapshotOf (step c e).1 tok = some (some rs)) := by
  constructor
  · intro c tok
    unfold CBLQuery_CurrentResults
    cases List.find? (fun l => l.token = tok) c.listeners with
    | none => rfl
    | some l =>
      cases c.storedError with
      | none => rfl
      | some e => rfl
  · intro c tok rs e hsnap hnod hne
    cases hf : List.find? (fun x => x.token = tok) c.listeners with
    | none =>
      rw [snapshotOf, hf] at hsnap
      cases hsnap
    | some l =>
      have hls : l.snapshot = some rs := by
        rw [snapshotOf_eq c tok l hf] at hsnap
        injection hsnap
      have htok : l.token = tok := by simpa using List.find?_some hf
      cases e with
      | addListener tok2 =>
        cases hemp : c.listeners.isEmpty with
        | true =>
          rw [List.isEmpty_iff] at hemp
          rw [hemp] at hf
          cases hf
        | false =>
          have hstep : (step c (Event.addListener tok2)).1
              = { c with listeners := c.listeners ++ [⟨tok2, none⟩] } := by
            simp [step, hemp]
          rw [hstep]
          rw [snapshotOf]
          show Option.map Listener.snapshot
            (List.find? (fun x => x.token = tok) (c.listeners ++ [⟨tok2, none⟩]))
            = some (some rs)
          rw [List.find?_append, hf]
          simp [hls]
      | removeListener tok2 =>
        have htok2 : tok2 ≠ tok := by
          intro hcontra
          subst hcontra
          exact hne rfl
        have hfind2 : List.find? (fun x => x.token = tok)
            (List.filter (fun x => x.token ≠ tok2) c.listeners) = some l := by
          rw [find?_filter_of_imp c.listeners _ _ ?_]
          · exact hf
          · intro a ha
            simp only [decide_eq_true_eq] at ha ⊢
            rw [ha]
            exact fun hcon => htok2 hcon.symm
        have hnonempty :
            (List.filter (fun x => x.token ≠ tok2) c.listeners).isEmpty = false := by
          cases hempty : (List.filter (fun x => x.token ≠ tok2) c.listeners).isEmpty
          · rfl
          · rw [List.isEmpty_iff] at hempty
            rw [hempty] at hfind2
            cases hfind2
        have hstep : (step c (Event.removeListener tok2)).1
            = { c with
                listeners := List.filter (fun x => x.token ≠ tok2) c.listeners } := by
          simp only [step]
          rw [if_neg ?_]
          rw [hnonempty]
          simp
        rw [hstep]
        rw [snapshotOf]
        show Option.map Listener.snapshot
          (List.find? (fun x => x.token = tok)
            (List.filter (fun x => x.token ≠ tok2) c.listeners)) = some (some rs)
        rw [hfind2]
        simp [hls]
      | dbChange =>
        have hstep : (step c Event.dbChange).1.listeners = c.listeners := by
          obtain ⟨ph, ls, ld, se⟩ := c
          cases ph <;> rfl
        rw [snapshotOf_of_listeners_eq _ c tok hstep, snapshotOf_eq c tok l hf, hls]
      | runStart =>
        have hstep : (step c Event.runStart).1.listeners = c.listeners := by
          obtain ⟨ph, ls, ld, se⟩ := c
          cases ph <;> rfl
        rw [snapshotOf_of_listeners_eq _ c tok hstep, snapshotOf_eq c tok l hf, hls]
      | runComplete r =>
        have hstep := step_runComplete_no_dispatch_listeners c r hnod
        rw [snapshotOf_of_listeners_eq _ c tok hstep, snapshotOf_eq c tok l hf, hls]

theorem current_results_pure_and_stable_witness :
    snapshotOf
      (step ⟨Phase.settled, [⟨1, some ⟨["c"], [[Value.null]]⟩⟩],
        some ⟨["c"], [[Value.null]]⟩, none⟩ Event.dbChange).1 1
      = some (some ⟨["c"], [[Value.null]]⟩) :=
  current_results_pure_and_stable.2
    ⟨Phase.settled, [⟨1, some ⟨["c"], [[Value.null]]⟩⟩],
      some ⟨["c"], [[Value.null]]⟩, none⟩ 1 ⟨["c"], [[Value.null]]⟩
    Event.dbChange rfl rfl (by decide)

end CBL
